import Mathlib

/-!
Verification of the macro-placement legalization scripts.

The development shallowly embeds the two legalization strategies of the
repository:

* `legalize_placement` embeds `dumb_legalize.py` (the sequential greedy
  legalizer).  Coordinates are integers (the DEF parser produces `int`
  coordinates and the script only adds integers to them).
* `force_based_placement` embeds `force_legalize.py` (the force-directed
  relaxation step).  The script computes with floating-point numbers; we
  idealize those as real numbers, and model the final `int(...)` write-back
  as truncation toward zero.

The macro records of the scripts also carry `type`, `status` and
`orientation` fields; they are never read nor written by either algorithm,
so they are omitted from the embedded records.
-/

/-- A macro record as manipulated by `dumb_legalize.py`: a name (the dict
key), integer lower-left coordinates, and the `highlighted` annotation the
step may set.  The placement model's macro dictionary is embedded as a list
of these records in dict insertion order. -/
structure DMacroRec where
  name : String
  x : Int
  y : Int
  highlighted : Bool
deriving DecidableEq, Repr

/-- The pairwise overlap computation of `dumb_legalize.py` lines 33-39:
both boxes are shifted by `-halo` and expanded to `w + 2*halo` by
`h + 2*halo`; each component is the length of the intersection of the two
expanded boxes along that axis. -/
def overlapPair (c m : Int × Int) (w h halo : Int) : Int × Int :=
  let x1 := c.1 - halo
  let y1 := c.2 - halo
  let x2 := m.1 - halo
  let y2 := m.2 - halo
  (min (x1 + w + 2 * halo) (x2 + w + 2 * halo) - max x1 x2,
   min (y1 + h + 2 * halo) (y2 + h + 2 * halo) - max y1 y2)

/-- Sort key of `dumb_legalize.py` line 17.  The source sorts by the float
`(x**2 + y**2)**0.5`; the square root is strictly monotone on nonnegative
arguments, so sorting by the squared distance produces the same order,
ties included. -/
def distKey (m : DMacroRec) : Int := m.x ^ 2 + m.y ^ 2

/-- Stable insertion into a list sorted by `distKey`: the new element goes
after all existing elements with key less than or equal to its own, which
matches the stability of Python's sort. -/
def insertByKey (m : DMacroRec) : List DMacroRec → List DMacroRec
  | [] => [m]
  | a :: as => if distKey a ≤ distKey m then a :: insertByKey m as else m :: a :: as

/-- Stable sort by distance from the origin (`macros.sort(key=...)`). -/
def sortMacros (l : List DMacroRec) : List DMacroRec :=
  l.foldl (fun acc m => insertByKey m acc) []

/-- Python list indexing `l[i]`: nonnegative indices are positions from the
front, negative indices count from the back, anything else raises
`IndexError` (modelled by `none`). -/
def pyIdx {α : Type} (l : List α) (i : Int) : Option α :=
  if 0 ≤ i then l.get? i.toNat
  else if (-i).toNat ≤ l.length then l.get? (l.length - (-i).toNat) else none

/-- Python slicing `l[i:]`: a nonnegative start drops that many elements, a
negative start counts from the back and is clamped to the front. -/
def pySlice {α : Type} (l : List α) (i : Int) : List α :=
  if 0 ≤ i then l.drop i.toNat else l.drop (l.length - (-i).toNat)

/-- The overlap test of the collection loop (`dumb_legalize.py` lines
31-45): a later-ranked macro is collected together with its overlap
amounts when both components of the halo-expanded overlap are strictly
positive. -/
def checkOverlap (cur : DMacroRec) (w h halo : Int) (m : DMacroRec) : Option (String × Int × Int) :=
  let p := overlapPair (cur.x, cur.y) (m.x, m.y) w h halo
  if 0 < p.1 ∧ 0 < p.2 then some (m.name, p.1, p.2) else none

/-- The displacement loop (`dumb_legalize.py` lines 52-61) applied to one
macro record: the collected macros are dictionary entries keyed by their
unique names, so the loop's in-place mutation updates exactly the entry
whose name carries the overlap amounts; it moves right by the x-overlap
when that is strictly smaller, otherwise down (`+y`) by the y-overlap. -/
def moveOf (ov : List (String × Int × Int)) (m : DMacroRec) : DMacroRec :=
  match ov.find? (fun o => o.1 == m.name) with
  | some (_, ox, oy) => if ox < oy then { m with x := m.x + ox } else { m with y := m.y + oy }
  | none => m

/-- The assignment `data["macros"][current["name"]]["highlighted"] = True` (line 27):
marks the entry with the current macro's name. -/
def setHighlight (cur : DMacroRec) (m : DMacroRec) : DMacroRec :=
  if m.name == cur.name then { m with highlighted := true } else m

/-- One step of the sequential legalizer, `legalize_placement` of
`dumb_legalize.py`.  The macro list is sorted by distance from the origin,
the macro at (Python) index `iteration` becomes current and is highlighted,
overlaps against all macros after that index are collected, and each
collected macro is displaced along the axis of smaller overlap.  An
out-of-range index raises `IndexError` before any mutation, modelled by
`Except.error`. -/
def legalize_placement (data : List DMacroRec) (w h halo : Int) (iteration : Int) :
    Except String (List DMacroRec) :=
  let macros := sortMacros data
  match pyIdx macros iteration with
  | none => Except.error ("list index out of range")
  | some current =>
    let data1 := data.map (setHighlight current)
    let rest := pySlice macros (iteration + 1)
    let overlapping := rest.filterMap (checkOverlap current w h halo)
    if overlapping.isEmpty then Except.ok data1
    else Except.ok (data1.map (moveOf overlapping))

/-- The caller's model after a sequential step.  `legalize_placement`
mutates the dictionary it is given (the coordinate lists of the collected
macros are shared with `data`, lines 52-65) and returns that same
dictionary; when the index lookup raises, the exception fires before the
first mutation (line 23 precedes line 27), so the caller's model is the
returned model on success and the untouched input on error. -/
def seqCallerModelAfter (data : List DMacroRec) (w h halo : Int) (iteration : Int) :
    List DMacroRec :=
  match legalize_placement data w h halo iteration with
  | Except.ok out => out
  | Except.error _ => data

/-- Position of the macro dictionary entry with the given name. -/
def posOf (l : List DMacroRec) (nm : String) : Option (Int × Int) :=
  (l.find? (fun m => m.name == nm)).map (fun m => (m.x, m.y))

/-- A macro record as manipulated by `force_legalize.py`: name and
position.  The script computes with floating-point coordinates; positions
are idealized as real numbers (each step writes back
integer-valued ones). -/
structure FMacroRec where
  name : String
  pos : ℝ × ℝ

/-- The placement model seen by `force_based_placement`: die-area corners
(integers, as produced by the DEF parser) and the macro dictionary in
insertion order. -/
structure FModel where
  lower_left : Int × Int
  upper_right : Int × Int
  macros : List FMacroRec

/-- Componentwise pair arithmetic mirroring the numpy 2-vector
operations. -/
def padd (a b : ℝ × ℝ) : ℝ × ℝ := (a.1 + b.1, a.2 + b.2)

def psub (a b : ℝ × ℝ) : ℝ × ℝ := (a.1 - b.1, a.2 - b.2)

def pscale (c : ℝ) (v : ℝ × ℝ) : ℝ × ℝ := (c * v.1, c * v.2)

noncomputable def pdiv (v : ℝ × ℝ) (c : ℝ) : ℝ × ℝ := (v.1 / c, v.2 / c)

/-- The numpy function np.linalg.norm on a 2-vector. -/
noncomputable def vnorm (v : ℝ × ℝ) : ℝ := Real.sqrt (v.1 ^ 2 + v.2 ^ 2)

/-- All ordered pairs `(l[i], l[j])` with `i < j`, in the order of the
nested loops `for i in range(n): for j in range(i+1, n)`. -/
def pairsAfter {α : Type} : List α → List (α × α)
  | [] => []
  | x :: xs => xs.map (fun y => (x, y)) ++ pairsAfter xs

/-- The repulsion computation for one pair (`force_legalize.py` lines
44-81), parameterized by the macro extent `W × H` that the source binds to
the local constants `macro_width = 155420`, `macro_height = 81200`.
Returns the force vector added to the second macro of the pair (the first
receives its negation), or `none` when the halo-expanded extents do not
overlap.  `1 / 1000000` stands for the float tolerance `1e-6`. -/
noncomputable def pairRepulsion (W H ofc halo : ℝ) (pi pj : ℝ × ℝ) : Option (ℝ × ℝ) :=
  let ci := (pi.1 - halo, pi.2 - halo)
  let cj := (pj.1 - halo, pj.2 - halo)
  if |ci.1 - cj.1| < W + halo * 2 ∧ |ci.2 - cj.2| < H + halo * 2 then
    let center_i := (ci.1 + W / 2, ci.2 + H / 2)
    let center_j := (cj.1 + W / 2, cj.2 + H / 2)
    let dir0 := psub center_j center_i
    let dir1 := if vnorm dir0 < 1 / 1000000 then ((1 : ℝ), (0 : ℝ)) else dir0
    let dir := pdiv dir1 (vnorm dir1)
    let odx := W - |ci.1 - cj.1| + halo * 2
    let ody := H - |ci.2 - cj.2| + halo * 2
    some (pscale (ofc * min odx ody) dir)
  else none

/-- The pair loop, accumulating repulsion forces into the per-name force
dictionary (`forces[name_i] -= ...; forces[name_j] += ...`). -/
noncomputable def repulsionForces (W H ofc halo : ℝ) (ms : List FMacroRec) : String → ℝ × ℝ :=
  (pairsAfter ms).foldl
    (fun f p =>
      match pairRepulsion W H ofc halo p.1.pos p.2.pos with
      | some v =>
        let f1 := Function.update f p.1.name (psub (f p.1.name) v)
        Function.update f1 p.2.name (padd (f1 p.2.name) v)
      | none => f)
    (fun _ => ((0 : ℝ), (0 : ℝ)))

/-- The spring loop (`force_legalize.py` lines 84-100): for each macro,
if the distance to its original position exceeds the tolerance, add a
force of magnitude `spring_force * distance` along the unit direction
toward the original position.  Python indexes `original_data` by name
(raising `KeyError` on a missing name); the embedding covers the defined
domain and extends it by skipping missing names. -/
noncomputable def springForces (sfc : ℝ) (origMacros : List FMacroRec) (ms : List FMacroRec)
    (f0 : String → ℝ × ℝ) : String → ℝ × ℝ :=
  ms.foldl
    (fun f m =>
      match origMacros.find? (fun o => o.name == m.name) with
      | none => f
      | some o =>
        let dir0 := psub o.pos m.pos
        let dist := vnorm dir0
        if 1 / 1000000 < dist then
          Function.update f m.name (padd (f m.name) (pscale (sfc * dist) (pdiv dir0 dist)))
        else f)
    f0

/-- Truncation toward zero: the effect of Python's `int()` on a float. -/
noncomputable def truncToInt (x : ℝ) : Int := if 0 ≤ x then ⌊x⌋ else ⌈x⌉

/-- The integration, containment and write-back of one macro
(`force_legalize.py` lines 101-113): add the accumulated force to the
position, clamp each axis into `[lower_left, upper_right - extent]`, and
store `int()` of the result. -/
noncomputable def integrateRec (W H : ℝ) (lo hi : Int × Int) (f : String → ℝ × ℝ)
    (m : FMacroRec) : FMacroRec :=
  let new0 := padd m.pos (f m.name)
  let nx := max ((lo.1 : ℝ)) (min ((hi.1 : ℝ) - W) new0.1)
  let ny := max ((lo.2 : ℝ)) (min ((hi.2 : ℝ) - H) new0.2)
  { m with pos := ((truncToInt nx : ℝ), (truncToInt ny : ℝ)) }

/-- The function `force_based_placement` with the macro extent lifted out as
parameters; the body is otherwise the source's: repulsion pass, spring
pass, then integration with clamping and `int()` write-back, applied to a
deep copy of the input model. -/
noncomputable def force_based_placement_sized (W H : ℝ) (data original : FModel)
    (overlap_force spring_force halo_size : ℝ) : FModel :=
  let f1 := repulsionForces W H overlap_force halo_size data.macros
  let f2 := springForces spring_force original.macros data.macros f1
  { data with macros := data.macros.map (integrateRec W H data.lower_left data.upper_right f2) }

/-- The function `force_based_placement` of `force_legalize.py`: the source hard-codes
`macro_width = 155420` and `macro_height = 81200` (lines 36-38) and uses
them in the overlap test, the repulsion magnitudes, and the die-area
clamp. -/
noncomputable def force_based_placement (data original : FModel)
    (overlap_force spring_force halo_size : ℝ) : FModel :=
  force_based_placement_sized 155420 81200 data original overlap_force spring_force halo_size

/-- The caller's model after a relaxation step: `force_based_placement`
starts with `modified_data = copy.deepcopy(data)` (line 19) and only ever
writes that copy, so the caller's input model is untouched by the call. -/
noncomputable def forceCallerModelAfter (data _original : FModel)
    (_overlap_force _spring_force _halo_size : ℝ) : FModel :=
  data

/-- Concrete model for the relaxation scenarios: two fully coincident
macros at the origin inside a large die. -/
noncomputable def coincidentModel : FModel :=
  { lower_left := (-1000000, -1000000)
    upper_right := (1000000, 1000000)
    macros := [⟨"A", ((0 : ℝ), (0 : ℝ))⟩, ⟨"B", ((0 : ℝ), (0 : ℝ))⟩] }

/-- Concrete model whose die (10 by 10) is smaller than the hard-coded
macro extent. -/
noncomputable def tinyDieModel : FModel :=
  { lower_left := (0, 0)
    upper_right := (10, 10)
    macros := [⟨"A", ((0 : ℝ), (0 : ℝ))⟩] }

/-- Concrete model with two macros 90000 apart vertically: farther than
the hard-coded height 81200, hence no repulsion, but closer than the
hard-coded width. -/
noncomputable def separatedModel : FModel :=
  { lower_left := (0, 0)
    upper_right := (1000000, 1000000)
    macros := [⟨"A", ((0 : ℝ), (0 : ℝ))⟩, ⟨"B", ((0 : ℝ), (90000 : ℝ))⟩] }

theorem insertByKey_perm (m : DMacroRec) (l : List DMacroRec) :
    (insertByKey m l).Perm (m :: l) := by
  induction l with
  | nil => simp [insertByKey]
  | cons a as ih =>
    by_cases hle : distKey a ≤ distKey m
    · simpa [insertByKey, hle] using (ih.cons a).trans (List.Perm.swap m a as)
    · simp [insertByKey, hle]

theorem foldl_insertByKey_perm (l acc : List DMacroRec) :
    (l.foldl (fun acc m => insertByKey m acc) acc).Perm (acc ++ l) := by
  induction l generalizing acc with
  | nil => simp
  | cons x xs ih =>
    rw [List.foldl_cons]
    have h1 := ih (insertByKey x acc)
    have h2 : (insertByKey x acc ++ xs).Perm ((x :: acc) ++ xs) :=
      (insertByKey_perm x acc).append_right xs
    have h3 : ((x :: acc) ++ xs).Perm (acc ++ x :: xs) := by
      rw [List.cons_append]
      exact List.perm_middle.symm
    exact (h1.trans h2).trans h3

theorem sortMacros_perm (l : List DMacroRec) : (sortMacros l).Perm l := by
  simpa [sortMacros] using foldl_insertByKey_perm l []

theorem pyIdx_toNat {α : Type} (l : List α) (i : Int) (h : 0 ≤ i) :
    pyIdx l i = l.get? i.toNat := by
  simp [pyIdx, h]

theorem pyIdx_none {α : Type} (l : List α) (i : Int)
    (h : (l.length : Int) ≤ i ∨ i < -(l.length : Int)) : pyIdx l i = none := by
  unfold pyIdx
  split_ifs with h0 h1
  · exact List.get?_eq_none.mpr (by omega)
  · exact absurd h1 (by omega)
  · rfl

theorem pySlice_toNat {α : Type} (l : List α) (i : Int) (h : 0 ≤ i) :
    pySlice l i = l.drop i.toNat := by
  simp [pySlice, h]

theorem setHighlight_name (c m : DMacroRec) : (setHighlight c m).name = m.name := by
  unfold setHighlight; split <;> rfl

theorem setHighlight_x (c m : DMacroRec) : (setHighlight c m).x = m.x := by
  unfold setHighlight; split <;> rfl

theorem setHighlight_y (c m : DMacroRec) : (setHighlight c m).y = m.y := by
  unfold setHighlight; split <;> rfl

theorem moveOf_name (ov : List (String × Int × Int)) (m : DMacroRec) :
    (moveOf ov m).name = m.name := by
  unfold moveOf
  cases hf : ov.find? (fun o => o.1 == m.name) with
  | none => rfl
  | some o =>
    obtain ⟨nm, ox, oy⟩ := o
    dsimp only
    split <;> rfl

theorem checkOverlap_name (cur : DMacroRec) (w h halo : Int) (m : DMacroRec)
    (o : String × Int × Int) (ho : checkOverlap cur w h halo m = some o) :
    o.1 = m.name := by
  simp only [checkOverlap] at ho
  split at ho
  · cases ho; rfl
  · cases ho

theorem checkOverlap_pos (cur : DMacroRec) (w h halo : Int) (m : DMacroRec)
    (h1 : 0 < (overlapPair (cur.x, cur.y) (m.x, m.y) w h halo).1)
    (h2 : 0 < (overlapPair (cur.x, cur.y) (m.x, m.y) w h halo).2) :
    checkOverlap cur w h halo m =
      some (m.name, (overlapPair (cur.x, cur.y) (m.x, m.y) w h halo).1,
        (overlapPair (cur.x, cur.y) (m.x, m.y) w h halo).2) := by
  simp [checkOverlap, h1, h2]

theorem overlapKeys_sublist (cur : DMacroRec) (w h halo : Int) (l : List DMacroRec) :
    List.Sublist ((l.filterMap (checkOverlap cur w h halo)).map Prod.fst)
      (l.map DMacroRec.name) := by
  induction l with
  | nil => simp
  | cons a t ih =>
    rw [List.filterMap_cons, List.map_cons]
    cases hco : checkOverlap cur w h halo a with
    | none => exact ih.cons _
    | some o =>
      rw [List.map_cons, checkOverlap_name cur w h halo a o hco]
      exact ih.cons₂ _

theorem key_head_eq {α : Type} (key : α → String) (x : α) (t : List α)
    (hnd : ((x :: t).map key).Nodup) (a : α) (ha : a ∈ x :: t)
    (hx : key x = key a) : x = a := by
  rcases List.mem_cons.mp ha with hax | hat
  · exact hax.symm
  · exfalso
    have hmem : key a ∈ t.map key := List.mem_map_of_mem key hat
    rw [List.map_cons] at hnd
    exact (List.nodup_cons.mp hnd).1 (by rw [hx]; exact hmem)

theorem find?_key_of_nodup {α : Type} (key : α → String) (l : List α)
    (hnd : (l.map key).Nodup) (a : α) (ha : a ∈ l) :
    l.find? (fun b => key b == key a) = some a := by
  induction l with
  | nil => cases ha
  | cons x t ih =>
    by_cases hx : key x = key a
    · rw [List.find?_cons_of_pos _ (by simp [hx])]
      exact congrArg some (key_head_eq key x t hnd a ha hx)
    · rw [List.find?_cons_of_neg _ (by simp [beq_iff_eq, hx])]
      have hat : a ∈ t := by
        rcases List.mem_cons.mp ha with hax | hat
        · exact absurd (by rw [hax]) hx
        · exact hat
      exact ih ((List.nodup_cons.mp (by rwa [List.map_cons] at hnd)).2) hat

theorem find?_key_map {α : Type} (key : α → String) (g : α → α)
    (hg : ∀ b, key (g b) = key b) (l : List α)
    (hnd : (l.map key).Nodup) (a : α) (ha : a ∈ l) :
    (l.map g).find? (fun b => key b == key a) = some (g a) := by
  induction l with
  | nil => cases ha
  | cons x t ih =>
    rw [List.map_cons]
    by_cases hx : key x = key a
    · rw [List.find?_cons_of_pos _ (by simp [hg, hx])]
      exact congrArg (fun b => some (g b)) (key_head_eq key x t hnd a ha hx)
    · rw [List.find?_cons_of_neg _ (by simp [hg, beq_iff_eq, hx])]
      have hat : a ∈ t := by
        rcases List.mem_cons.mp ha with hax | hat
        · exact absurd (by rw [hax]) hx
        · exact hat
      exact ih ((List.nodup_cons.mp (by rwa [List.map_cons] at hnd)).2) hat

theorem legalize_ok (data : List DMacroRec) (w h halo k : Int) (c : DMacroRec)
    (hidx : pyIdx (sortMacros data) k = some c) :
    legalize_placement data w h halo k =
      Except.ok ((data.map (setHighlight c)).map
        (moveOf ((pySlice (sortMacros data) (k + 1)).filterMap
          (checkOverlap c w h halo)))) := by
  simp only [legalize_placement, hidx]
  by_cases he :
      ((pySlice (sortMacros data) (k + 1)).filterMap (checkOverlap c w h halo)).isEmpty
  · rw [if_pos he]
    rw [List.isEmpty_iff.mp he]
    rw [show moveOf ([] : List (String × Int × Int)) = fun m => m from funext (fun _ => rfl)]
    simp
  · rw [if_neg he]

/-- Claim C7: a sequential step with a valid iteration index `k` never
changes the position of the current macro (rank `k` in the
distance-from-origin order computed at the start of the step) or of any
macro of smaller rank, i.e. of any element of the first `k + 1` entries of
the sorted list. -/
theorem seq_preserves_earlier_ranks
    (model : List DMacroRec) (w h halo k : Int) (out : List DMacroRec)
    (hnd : (model.map DMacroRec.name).Nodup)
    (hk : 0 ≤ k)
    (hstep : legalize_placement model w h halo k = Except.ok out)
    (e : DMacroRec) (he : e ∈ (sortMacros model).take (k.toNat + 1)) :
    posOf out e.name = posOf model e.name := by
  cases hidx : pyIdx (sortMacros model) k with
  | none =>
    rw [legalize_placement, hidx] at hstep
    cases hstep
  | some c =>
    rw [legalize_ok model w h halo k c hidx] at hstep
    injection hstep with hstep
    subst hstep
    have hperm : (sortMacros model).Perm model := sortMacros_perm model
    have hndS : ((sortMacros model).map DMacroRec.name).Nodup :=
      ((hperm.map DMacroRec.name).nodup_iff).mpr hnd
    have heS : e ∈ sortMacros model := List.mem_of_mem_take he
    have heM : e ∈ model := (hperm.mem_iff).mp heS
    have hslice : pySlice (sortMacros model) (k + 1) = (sortMacros model).drop (k.toNat + 1) := by
      rw [pySlice_toNat _ _ (by omega)]
      congr 1
      omega
    have hkeys :
        List.Sublist
          (((pySlice (sortMacros model) (k + 1)).filterMap (checkOverlap c w h halo)).map
            Prod.fst)
          (((sortMacros model).map DMacroRec.name).drop (k.toNat + 1)) := by
      rw [hslice, ← List.map_drop]
      exact overlapKeys_sublist c w h halo _
    have hnotin :
        e.name ∉
          ((pySlice (sortMacros model) (k + 1)).filterMap (checkOverlap c w h halo)).map
            Prod.fst := by
      intro hin
      have hintake : e.name ∈ ((sortMacros model).map DMacroRec.name).take (k.toNat + 1) := by
        rw [← List.map_take]
        exact List.mem_map_of_mem DMacroRec.name he
      have hindrop := hkeys.subset hin
      have hdisj :
          List.Disjoint (((sortMacros model).map DMacroRec.name).take (k.toNat + 1))
            (((sortMacros model).map DMacroRec.name).drop (k.toNat + 1)) :=
        List.disjoint_of_nodup_append (by rw [List.take_append_drop]; exact hndS)
      exact hdisj hintake hindrop
    have hgname :
        ∀ b : DMacroRec,
          (moveOf ((pySlice (sortMacros model) (k + 1)).filterMap (checkOverlap c w h halo))
              (setHighlight c b)).name = b.name := by
      intro b
      rw [moveOf_name, setHighlight_name]
    have hfound :
        ((model.map (setHighlight c)).map
              (moveOf
                ((pySlice (sortMacros model) (k + 1)).filterMap
                  (checkOverlap c w h halo)))).find?
            (fun b => b.name == e.name) =
          some
            (moveOf ((pySlice (sortMacros model) (k + 1)).filterMap (checkOverlap c w h halo))
              (setHighlight c e)) := by
      rw [List.map_map]
      exact find?_key_map DMacroRec.name _ hgname model hnd e heM
    have hnone :
        ((pySlice (sortMacros model) (k + 1)).filterMap (checkOverlap c w h halo)).find?
            (fun o => o.1 == e.name) = none := by
      refine List.find?_eq_none.mpr ?_
      intro o ho
      simp only [beq_iff_eq]
      intro hoe
      exact hnotin (hoe ▸ List.mem_map_of_mem Prod.fst ho)
    have hmv :
        moveOf ((pySlice (sortMacros model) (k + 1)).filterMap (checkOverlap c w h halo))
            (setHighlight c e) = setHighlight c e := by
      unfold moveOf
      rw [setHighlight_name, hnone]
    unfold posOf
    rw [hfound, hmv, find?_key_of_nodup DMacroRec.name model hnd e heM]
    simp [setHighlight_x, setHighlight_y]

/-- Witness for C7 at the concrete two-macro scenario with `k = 0`. -/
theorem seq_preserves_earlier_ranks_wit :
    ([(⟨"A", 0, 0, false⟩ : DMacroRec), ⟨"B", 50, 0, false⟩].map DMacroRec.name).Nodup ∧
    (0 : Int) ≤ 0 ∧
    legalize_placement [⟨"A", 0, 0, false⟩, ⟨"B", 50, 0, false⟩] 100 100 0 0 =
      Except.ok [⟨"A", 0, 0, true⟩, ⟨"B", 100, 0, false⟩] ∧
    (⟨"A", 0, 0, false⟩ : DMacroRec) ∈
      (sortMacros [⟨"A", 0, 0, false⟩, ⟨"B", 50, 0, false⟩]).take 1 ∧
    posOf [⟨"A", 0, 0, true⟩, ⟨"B", 100, 0, false⟩]
        (DMacroRec.name ⟨"A", 0, 0, false⟩) =
      posOf [⟨"A", 0, 0, false⟩, ⟨"B", 50, 0, false⟩]
        (DMacroRec.name ⟨"A", 0, 0, false⟩) :=
  ⟨by decide, by decide, by rfl, by decide,
    seq_preserves_earlier_ranks _ 100 100 0 0 _ (by decide) (by decide) (by rfl)
      ⟨"A", 0, 0, false⟩ (by decide)⟩

/-- Claim C1 (amended): after one sequential step with current macro `c`
(a valid rank `k`), every macro `m` ranked after `c` that overlapped `c`
ends with exactly zero halo-expanded overlap with `c` along the axis on
which it was displaced, provided `m`'s lower-left coordinate on that axis
is at least `c`'s — i.e. the fixed rightward/downward displacement
direction points away from `c`.  (Without that proviso the claim is false,
see the counterexample.) -/
theorem seq_relieves_axis
    (model : List DMacroRec) (w h halo k : Int) (out : List DMacroRec)
    (c m : DMacroRec)
    (hnd : (model.map DMacroRec.name).Nodup)
    (hk : 0 ≤ k)
    (hstep : legalize_placement model w h halo k = Except.ok out)
    (hc : pyIdx (sortMacros model) k = some c)
    (hm : m ∈ (sortMacros model).drop (k.toNat + 1))
    (hov1 : 0 < (overlapPair (c.x, c.y) (m.x, m.y) w h halo).1)
    (hov2 : 0 < (overlapPair (c.x, c.y) (m.x, m.y) w h halo).2)
    (hside :
      if (overlapPair (c.x, c.y) (m.x, m.y) w h halo).1 <
          (overlapPair (c.x, c.y) (m.x, m.y) w h halo).2 then
        c.x ≤ m.x
      else c.y ≤ m.y) :
    if (overlapPair (c.x, c.y) (m.x, m.y) w h halo).1 <
        (overlapPair (c.x, c.y) (m.x, m.y) w h halo).2 then
      posOf out m.name =
        some (m.x + (overlapPair (c.x, c.y) (m.x, m.y) w h halo).1, m.y) ∧
      (overlapPair (c.x, c.y)
          (m.x + (overlapPair (c.x, c.y) (m.x, m.y) w h halo).1, m.y) w h halo).1 = 0
    else
      posOf out m.name =
        some (m.x, m.y + (overlapPair (c.x, c.y) (m.x, m.y) w h halo).2) ∧
      (overlapPair (c.x, c.y)
          (m.x, m.y + (overlapPair (c.x, c.y) (m.x, m.y) w h halo).2) w h halo).2 = 0 := by
  rw [legalize_ok model w h halo k c hc] at hstep
  injection hstep with hstep
  subst hstep
  have hperm : (sortMacros model).Perm model := sortMacros_perm model
  have hndS : ((sortMacros model).map DMacroRec.name).Nodup :=
    ((hperm.map DMacroRec.name).nodup_iff).mpr hnd
  have hmS : m ∈ sortMacros model := List.mem_of_mem_drop hm
  have hmM : m ∈ model := (hperm.mem_iff).mp hmS
  have hslice : pySlice (sortMacros model) (k + 1) = (sortMacros model).drop (k.toNat + 1) := by
    rw [pySlice_toNat _ _ (by omega)]
    congr 1
    omega
  have hmem :
      (m.name, (overlapPair (c.x, c.y) (m.x, m.y) w h halo).1,
        (overlapPair (c.x, c.y) (m.x, m.y) w h halo).2) ∈
        (pySlice (sortMacros model) (k + 1)).filterMap (checkOverlap c w h halo) := by
    rw [hslice]
    exact List.mem_filterMap.mpr ⟨m, hm, checkOverlap_pos c w h halo m hov1 hov2⟩
  have hkeys :
      List.Sublist
        (((pySlice (sortMacros model) (k + 1)).filterMap (checkOverlap c w h halo)).map
          Prod.fst)
        (((sortMacros model).map DMacroRec.name).drop (k.toNat + 1)) := by
    rw [hslice, ← List.map_drop]
    exact overlapKeys_sublist c w h halo _
  have hdropnd : ((((sortMacros model).map DMacroRec.name)).drop (k.toNat + 1)).Nodup :=
    List.Nodup.sublist (List.drop_sublist _ _) hndS
  have hkeysnd :
      ((((pySlice (sortMacros model) (k + 1)).filterMap (checkOverlap c w h halo))).map
        Prod.fst).Nodup :=
    List.Nodup.sublist hkeys hdropnd
  have hfind :
      ((pySlice (sortMacros model) (k + 1)).filterMap (checkOverlap c w h halo)).find?
          (fun o => o.1 == m.name) =
        some
          (m.name, (overlapPair (c.x, c.y) (m.x, m.y) w h halo).1,
            (overlapPair (c.x, c.y) (m.x, m.y) w h halo).2) :=
    find?_key_of_nodup Prod.fst _ hkeysnd _ hmem
  have hgname :
      ∀ b : DMacroRec,
        (moveOf ((pySlice (sortMacros model) (k + 1)).filterMap (checkOverlap c w h halo))
            (setHighlight c b)).name = b.name := by
    intro b
    rw [moveOf_name, setHighlight_name]
  have hfound :
      ((model.map (setHighlight c)).map
            (moveOf
              ((pySlice (sortMacros model) (k + 1)).filterMap
                (checkOverlap c w h halo)))).find?
          (fun b => b.name == m.name) =
        some
          (moveOf ((pySlice (sortMacros model) (k + 1)).filterMap (checkOverlap c w h halo))
            (setHighlight c m)) := by
    rw [List.map_map]
    exact find?_key_map DMacroRec.name _ hgname model hnd m hmM
  have hmv :
      moveOf ((pySlice (sortMacros model) (k + 1)).filterMap (checkOverlap c w h halo))
          (setHighlight c m) =
        if (overlapPair (c.x, c.y) (m.x, m.y) w h halo).1 <
            (overlapPair (c.x, c.y) (m.x, m.y) w h halo).2 then
          { setHighlight c m with
            x := (setHighlight c m).x + (overlapPair (c.x, c.y) (m.x, m.y) w h halo).1 }
        else
          { setHighlight c m with
            y := (setHighlight c m).y + (overlapPair (c.x, c.y) (m.x, m.y) w h halo).2 } := by
    unfold moveOf
    rw [setHighlight_name, hfind]
    dsimp only
    split <;> simp [setHighlight_name]
  by_cases hlt :
      (overlapPair (c.x, c.y) (m.x, m.y) w h halo).1 <
        (overlapPair (c.x, c.y) (m.x, m.y) w h halo).2
  · rw [if_pos hlt] at hside ⊢
    constructor
    · unfold posOf
      rw [hfound, hmv, if_pos hlt]
      simp [setHighlight_x c m, setHighlight_y c m]
    · simp only [overlapPair] at hov1 hov2 hlt ⊢
      simp only [min_def, max_def] at hov1 hov2 hlt ⊢
      split_ifs at hov1 hov2 hlt ⊢ <;> omega
  · rw [if_neg hlt] at hside ⊢
    constructor
    · unfold posOf
      rw [hfound, hmv, if_neg hlt]
      simp [setHighlight_x c m, setHighlight_y c m]
    · simp only [overlapPair] at hov1 hov2 hlt ⊢
      simp only [min_def, max_def] at hov1 hov2 hlt ⊢
      split_ifs at hov1 hov2 hlt ⊢ <;> omega

/-- Counterexample to C1 as stated: extent 6 by 100, halo 0; A at (5,0)
is rank 0, B at (0,9) is rank 1 (distance 9 > 5).  They overlap with
overlaps (1, 91), the relieved axis is x, and B is moved right by 1 to
(1,9) — but B lay to the left of A, so the post-step x-overlap is 2, not
zero. -/
theorem seq_relieves_axis_cex :
    legalize_placement [⟨"A", 5, 0, false⟩, ⟨"B", 0, 9, false⟩] 6 100 0 0 =
      Except.ok [⟨"A", 5, 0, true⟩, ⟨"B", 1, 9, false⟩] ∧
    (overlapPair (5, 0) (0, 9) 6 100 0).1 < (overlapPair (5, 0) (0, 9) 6 100 0).2 ∧
    0 < (overlapPair (5, 0) (0, 9) 6 100 0).1 ∧
    0 < (overlapPair (5, 0) (0, 9) 6 100 0).2 ∧
    posOf [⟨"A", 5, 0, true⟩, ⟨"B", 1, 9, false⟩] ("B") = some (1, 9) ∧
    (overlapPair (5, 0) (1, 9) 6 100 0).1 ≠ 0 :=
  ⟨by rfl, by decide, by decide, by decide, by decide, by decide⟩

/-- Witness for C1 (amended) at the concrete two-macro scenario. -/
theorem seq_relieves_axis_wit :
    (([(⟨"A", 0, 0, false⟩ : DMacroRec), ⟨"B", 50, 0, false⟩].map DMacroRec.name).Nodup) ∧
    (0 < (overlapPair ((0 : Int), (0 : Int)) (50, 0) 100 100 0).1) ∧
    (0 < (overlapPair ((0 : Int), (0 : Int)) (50, 0) 100 100 0).2) ∧
    (if (overlapPair ((0 : Int), (0 : Int)) (50, 0) 100 100 0).1 <
        (overlapPair ((0 : Int), (0 : Int)) (50, 0) 100 100 0).2 then
      (0 : Int) ≤ 50
    else (0 : Int) ≤ 0) ∧
    (if (overlapPair ((0 : Int), (0 : Int)) (50, 0) 100 100 0).1 <
        (overlapPair ((0 : Int), (0 : Int)) (50, 0) 100 100 0).2 then
      posOf [⟨"A", 0, 0, true⟩, ⟨"B", 100, 0, false⟩] ("B") =
        some (50 + (overlapPair ((0 : Int), (0 : Int)) (50, 0) 100 100 0).1, 0) ∧
      (overlapPair ((0 : Int), (0 : Int))
          (50 + (overlapPair ((0 : Int), (0 : Int)) (50, 0) 100 100 0).1, 0) 100 100 0).1 = 0
    else
      posOf [⟨"A", 0, 0, true⟩, ⟨"B", 100, 0, false⟩] ("B") =
        some (50, 0 + (overlapPair ((0 : Int), (0 : Int)) (50, 0) 100 100 0).2) ∧
      (overlapPair ((0 : Int), (0 : Int))
          (50, 0 + (overlapPair ((0 : Int), (0 : Int)) (50, 0) 100 100 0).2) 100 100 0).2 =
        0) :=
  ⟨by decide, by decide, by decide, by decide,
    seq_relieves_axis [⟨"A", 0, 0, false⟩, ⟨"B", 50, 0, false⟩] 100 100 0 0
      [⟨"A", 0, 0, true⟩, ⟨"B", 100, 0, false⟩] ⟨"A", 0, 0, false⟩ ⟨"B", 50, 0, false⟩
      (by decide) (by decide) (by rfl) (by rfl) (by decide) (by decide) (by decide)
      (by decide)⟩

/-- Claim C8: the pairwise overlap computation is symmetric in its two
macro positions, for every shared extent and halo. -/
theorem overlap_symmetric (p1 p2 : Int × Int) (w h halo : Int) :
    overlapPair p1 p2 w h halo = overlapPair p2 p1 w h halo := by
  simp only [overlapPair, Prod.mk.injEq]
  exact ⟨by rw [min_comm, max_comm], by rw [min_comm, max_comm]⟩

/-- Claim C2: with extent 100 by 100, halo 0, macro A at (0,0) and B at
(50,0), the sequential step with iteration 0 selects and highlights A,
computes overlaps (50, 100), moves B right by 50 to (100,0), and the
resulting x-overlap between A and B is zero. -/
theorem seq_concrete_scenario :
    legalize_placement [⟨"A", 0, 0, false⟩, ⟨"B", 50, 0, false⟩] 100 100 0 0 =
      Except.ok [⟨"A", 0, 0, true⟩, ⟨"B", 100, 0, false⟩] ∧
    overlapPair (0, 0) (50, 0) 100 100 0 = (50, 100) ∧
    (overlapPair (0, 0) (100, 0) 100 100 0).1 = 0 :=
  ⟨by rfl, by decide, by decide⟩

/-- Claim C4 (amended): an iteration index that Python's list indexing
rejects — at least `macro_count`, or below `-macro_count` — makes the step
fail with an explicit `IndexError`, and the failure fires before any
mutation, so the caller's model is unchanged.  An index in
`[-macro_count, 0)`, although outside the spec's valid range, is instead
silently accepted through Python's negative indexing: the step returns a
result with no error (and for `iteration = -1` the comparison slice wraps
around to include the current macro itself, which then overlaps itself
and is moved — see the counterexample). -/
theorem seq_out_of_range_error :
    (∀ (model : List DMacroRec) (w h halo k : Int),
        (model.length : Int) ≤ k ∨ k < -(model.length : Int) →
          legalize_placement model w h halo k =
              Except.error ("list index out of range") ∧
            seqCallerModelAfter model w h halo k = model) ∧
    (∀ (model : List DMacroRec) (w h halo k : Int),
        -(model.length : Int) ≤ k → k < 0 →
          ∃ out, legalize_placement model w h halo k = Except.ok out) := by
  constructor
  · intro model w h halo k hk
    have hlen : (sortMacros model).length = model.length := (sortMacros_perm model).length_eq
    have hidx : pyIdx (sortMacros model) k = none := by
      refine pyIdx_none _ _ ?_
      rw [hlen]
      exact hk
    constructor
    · rw [legalize_placement, hidx]
    · rw [seqCallerModelAfter, legalize_placement, hidx]
  · intro model w h halo k hk1 hk2
    have hlen : (sortMacros model).length = model.length := (sortMacros_perm model).length_eq
    have hsome : ∃ c, pyIdx (sortMacros model) k = some c := by
      unfold pyIdx
      rw [if_neg (show ¬ (0 : Int) ≤ k by omega)]
      rw [if_pos (show (-k).toNat ≤ (sortMacros model).length by rw [hlen]; omega)]
      cases hg : (sortMacros model).get? ((sortMacros model).length - (-k).toNat) with
      | none =>
        exfalso
        have hle := List.get?_eq_none.mp hg
        rw [hlen] at hle
        omega
      | some c => exact ⟨c, rfl⟩
    obtain ⟨c, hc⟩ := hsome
    exact ⟨_, legalize_ok model w h halo k c hc⟩

/-- Witness for C4 (amended): one macro; iteration index 5 errors and
leaves the model unchanged, iteration index -1 succeeds with no error. -/
theorem seq_out_of_range_error_wit :
    (legalize_placement [⟨"A", 0, 0, false⟩] 100 100 0 5 =
        Except.error ("list index out of range") ∧
      seqCallerModelAfter [⟨"A", 0, 0, false⟩] 100 100 0 5 = [⟨"A", 0, 0, false⟩]) ∧
    (∃ out, legalize_placement [⟨"A", 0, 0, false⟩] 100 100 0 (-1) = Except.ok out) :=
  ⟨seq_out_of_range_error.1 [⟨"A", 0, 0, false⟩] 100 100 0 5 (Or.inl (by decide)),
    seq_out_of_range_error.2 [⟨"A", 0, 0, false⟩] 100 100 0 (-1) (by decide) (by decide)⟩

theorem truncToInt_clamp (lo hi : Int) (hle : lo ≤ hi) (x : ℝ) :
    lo ≤ truncToInt (max ((lo : ℝ)) (min ((hi : ℝ)) x)) ∧
    truncToInt (max ((lo : ℝ)) (min ((hi : ℝ)) x)) ≤ hi := by
  have hy1 : (lo : ℝ) ≤ max ((lo : ℝ)) (min ((hi : ℝ)) x) := le_max_left _ _
  have hy2 : max ((lo : ℝ)) (min ((hi : ℝ)) x) ≤ (hi : ℝ) :=
    max_le (by exact_mod_cast hle) (min_le_left _ _)
  unfold truncToInt
  split_ifs with h0
  · refine ⟨Int.le_floor.mpr hy1, ?_⟩
    have hf := Int.floor_mono hy2
    rwa [Int.floor_intCast] at hf
  · refine ⟨?_, Int.ceil_le.mpr hy2⟩
    have hcl := Int.ceil_mono hy1
    rwa [Int.ceil_intCast] at hcl

theorem trunc_clamp (lo ur : Int) (W : ℝ) (u : Int) (hW : (ur : ℝ) - W = (u : ℝ))
    (hle : lo ≤ u) (x : ℝ) :
    (lo : ℝ) ≤ (truncToInt (max ((lo : ℝ)) (min ((ur : ℝ) - W) x)) : ℝ) ∧
    (truncToInt (max ((lo : ℝ)) (min ((ur : ℝ) - W) x)) : ℝ) + W ≤ (ur : ℝ) := by
  rw [hW]
  obtain ⟨h1, h2⟩ := truncToInt_clamp lo u hle x
  refine ⟨by exact_mod_cast h1, ?_⟩
  have h2r : ((truncToInt (max ((lo : ℝ)) (min ((u : ℝ)) x))) : ℝ) ≤ (u : ℝ) := by
    exact_mod_cast h2
  linarith

/-- Claim C3 (amended): after one relaxation iteration, every macro
position lies inside the die area *provided the die is at least as large
as the hard-coded macro extent on each axis*; without that proviso the
clamp degenerates (see the counterexample). -/
theorem force_containment (data original : FModel) (ofc sfc halo : ℝ)
    (hx : data.lower_left.1 ≤ data.upper_right.1 - 155420)
    (hy : data.lower_left.2 ≤ data.upper_right.2 - 81200) :
    ∀ m' ∈ (force_based_placement data original ofc sfc halo).macros,
      ((data.lower_left.1 : ℝ) ≤ m'.pos.1 ∧ m'.pos.1 + 155420 ≤ (data.upper_right.1 : ℝ)) ∧
      ((data.lower_left.2 : ℝ) ≤ m'.pos.2 ∧
        m'.pos.2 + 81200 ≤ (data.upper_right.2 : ℝ)) := by
  intro m' hm'
  simp only [force_based_placement, force_based_placement_sized] at hm'
  obtain ⟨m, hm, rfl⟩ := List.mem_map.mp hm'
  refine
    ⟨trunc_clamp data.lower_left.1 data.upper_right.1 155420 (data.upper_right.1 - 155420)
        (by push_cast; ring) hx _,
      trunc_clamp data.lower_left.2 data.upper_right.2 81200 (data.upper_right.2 - 81200)
        (by push_cast; ring) hy _⟩

/-- Claim C10: the relaxation step writes back integer-valued coordinates
for every macro — the post-force, post-clamp real position is passed
through `truncToInt` (Python's `int()`) before being stored. -/
theorem force_positions_integral (data original : FModel) (ofc sfc halo : ℝ) :
    ∀ m' ∈ (force_based_placement data original ofc sfc halo).macros,
      ∃ a b : Int, m'.pos = ((a : ℝ), (b : ℝ)) := by
  intro m' hm'
  simp only [force_based_placement, force_based_placement_sized] at hm'
  obtain ⟨m, hm, rfl⟩ := List.mem_map.mp hm'
  exact ⟨_, _, rfl⟩

/-- Evaluation of the relaxation step on `tinyDieModel`: a single macro at
the origin receives no force, and the clamp writes it back to (0,0) even
though the 10 by 10 die cannot contain the 155420 by 81200 extent. -/
theorem tiny_eval :
    (force_based_placement tinyDieModel tinyDieModel 0.2 0.05 0).macros =
      [⟨"A", ((0 : ℝ), (0 : ℝ))⟩] := by
  rw [force_based_placement, force_based_placement_sized]
  norm_num [tinyDieModel, repulsionForces, pairsAfter, springForces, integrateRec,
    padd, psub, pscale, pdiv, vnorm, truncToInt, List.find?, min_def, max_def,
    Real.sqrt_zero]

theorem truncToInt_intCast (n : Int) : truncToInt ((n : ℝ)) = n := by
  unfold truncToInt
  split_ifs
  · exact Int.floor_intCast n
  · exact Int.ceil_intCast n

/-- Evaluation of the relaxation step on `coincidentModel`: the coincident
pair takes the fallback direction (1,0), receives repulsion of magnitude
`0.2 * min 155420 81200 = 16240`, and the two macros separate
symmetrically along x. -/
theorem coincident_eval :
    (force_based_placement coincidentModel coincidentModel 0.2 0 0).macros =
      [⟨"A", ((-16240 : ℝ), (0 : ℝ))⟩, ⟨"B", ((16240 : ℝ), (0 : ℝ))⟩] := by
  have hA : ("A" : String) ≠ "B" := by decide
  have hB : ("B" : String) ≠ "A" := by decide
  have hb1 : (("A" : String) == "B") = false := by decide
  have hb2 : (("B" : String) == "A") = false := by decide
  have hb3 : (("A" : String) == "A") = true := by decide
  have hb4 : (("B" : String) == "B") = true := by decide
  have ht1 : truncToInt ((-16240 : ℝ)) = ((-16240 : Int)) := by
    rw [show ((-16240 : ℝ)) = (((-16240 : Int)) : ℝ) by norm_num]
    exact truncToInt_intCast _
  have ht2 : truncToInt ((16240 : ℝ)) = ((16240 : Int)) := by
    rw [show ((16240 : ℝ)) = (((16240 : Int)) : ℝ) by norm_num]
    exact truncToInt_intCast _
  have ht0 : truncToInt ((0 : ℝ)) = 0 := by
    rw [show ((0 : ℝ)) = (((0 : Int)) : ℝ) by norm_num]
    exact truncToInt_intCast _
  rw [force_based_placement, force_based_placement_sized]
  norm_num [coincidentModel, repulsionForces, pairsAfter, springForces, pairRepulsion,
    integrateRec, padd, psub, pscale, pdiv, vnorm, List.find?, Function.update,
    min_def, max_def, Real.sqrt_zero, Real.sqrt_one, ht1, ht2, ht0, hA, hB, hb1, hb2,
    hb3, hb4]

/-- Evaluation of the relaxation step on `separatedModel`: the two macros
are 90000 apart vertically, more than the hard-coded height 81200, so the
overlap test fails and nothing moves. -/
theorem separated_eval :
    (force_based_placement separatedModel separatedModel 0.2 0 0).macros =
      [⟨"A", ((0 : ℝ), (0 : ℝ))⟩, ⟨"B", ((0 : ℝ), (90000 : ℝ))⟩] := by
  have hA : ("A" : String) ≠ "B" := by decide
  have hB : ("B" : String) ≠ "A" := by decide
  have hb1 : (("A" : String) == "B") = false := by decide
  have hb2 : (("B" : String) == "A") = false := by decide
  have hb3 : (("A" : String) == "A") = true := by decide
  have hb4 : (("B" : String) == "B") = true := by decide
  have ht0 : truncToInt ((0 : ℝ)) = 0 := by
    rw [show ((0 : ℝ)) = (((0 : Int)) : ℝ) by norm_num]
    exact truncToInt_intCast _
  have ht9 : truncToInt ((90000 : ℝ)) = ((90000 : Int)) := by
    rw [show ((90000 : ℝ)) = (((90000 : Int)) : ℝ) by norm_num]
    exact truncToInt_intCast _
  rw [force_based_placement, force_based_placement_sized]
  norm_num [separatedModel, repulsionForces, pairsAfter, springForces, pairRepulsion,
    integrateRec, padd, psub, pscale, pdiv, vnorm, List.find?, Function.update,
    min_def, max_def, Real.sqrt_zero, abs_of_nonneg, abs_of_nonpos, ht0, ht9, hA, hB,
    hb1, hb2, hb3, hb4]

/-- Counterexample to C3 as stated: with a 10 by 10 die (smaller than the
hard-coded 155420 by 81200 extent) a macro written back at the origin does
not fit inside the die area. -/
theorem force_containment_cex :
    (force_based_placement tinyDieModel tinyDieModel 0.2 0.05 0).macros =
      [⟨"A", ((0 : ℝ), (0 : ℝ))⟩] ∧
    ¬ ((0 : ℝ) + 155420 ≤ ((tinyDieModel.upper_right.1 : Int) : ℝ)) :=
  ⟨tiny_eval, by norm_num [tinyDieModel]⟩

/-- Witness for C3 (amended) on a die large enough for the extent. -/
theorem force_containment_wit :
    (separatedModel.lower_left.1 ≤ separatedModel.upper_right.1 - 155420 ∧
      separatedModel.lower_left.2 ≤ separatedModel.upper_right.2 - 81200) ∧
    (∀ m' ∈ (force_based_placement separatedModel separatedModel 0.2 0.05 0).macros,
      ((separatedModel.lower_left.1 : ℝ) ≤ m'.pos.1 ∧
        m'.pos.1 + 155420 ≤ (separatedModel.upper_right.1 : ℝ)) ∧
      ((separatedModel.lower_left.2 : ℝ) ≤ m'.pos.2 ∧
        m'.pos.2 + 81200 ≤ (separatedModel.upper_right.2 : ℝ))) :=
  ⟨⟨by decide, by decide⟩,
    force_containment separatedModel separatedModel 0.2 0.05 0 (by decide) (by decide)⟩

/-- Witness for C10 at a concrete relaxation run. -/
theorem force_positions_integral_wit :
    ((⟨"A", ((0 : ℝ), (0 : ℝ))⟩ : FMacroRec) ∈
      (force_based_placement tinyDieModel tinyDieModel 0.2 0.05 0).macros) ∧
    (∃ a b : Int, (⟨"A", ((0 : ℝ), (0 : ℝ))⟩ : FMacroRec).pos = ((a : ℝ), (b : ℝ))) :=
  ⟨by rw [tiny_eval]; exact List.mem_singleton.mpr rfl,
    force_positions_integral tinyDieModel tinyDieModel 0.2 0.05 0 _
      (by rw [tiny_eval]; exact List.mem_singleton.mpr rfl)⟩

/-- Claim C9: the relaxation step performs its overlap test, repulsion
magnitudes and clamping with the hard-coded extent 155420 by 81200 and
takes no size parameter, so its output cannot depend on a macro size
configured elsewhere; concretely, two macros 90000 apart vertically are
treated as non-overlapping (90000 exceeds the hard-coded 81200) and are
left in place. -/
theorem force_hardcoded_extent :
    (∀ (data original : FModel) (ofc sfc halo : ℝ),
        force_based_placement data original ofc sfc halo =
          force_based_placement_sized 155420 81200 data original ofc sfc halo) ∧
    (force_based_placement separatedModel separatedModel 0.2 0 0).macros =
      [⟨"A", ((0 : ℝ), (0 : ℝ))⟩, ⟨"B", ((0 : ℝ), (90000 : ℝ))⟩] :=
  ⟨fun _ _ _ _ _ => rfl, separated_eval⟩

/-- Claim C6 (amended): two fully coincident macros with halo 0,
overlap force 0.2 and spring force 0 take the fallback direction (1,0)
and separate symmetrically along x, each displaced by magnitude
`0.2 * 81200` — `0.2` times the hard-coded macro *height*, the smaller of
the two extents — and are written back inside the die. -/
theorem force_coincident_scenario :
    (force_based_placement coincidentModel coincidentModel 0.2 0 0).macros =
      [⟨"A", ((-16240 : ℝ), (0 : ℝ))⟩, ⟨"B", ((16240 : ℝ), (0 : ℝ))⟩] ∧
    (-16240 : ℝ) = -(0.2 * 81200) ∧ (16240 : ℝ) = 0.2 * 81200 :=
  ⟨coincident_eval, by norm_num, by norm_num⟩

/-- Counterexample to C6 as stated: the displacement magnitude in the
coincident scenario is 16240, which is not `0.2` times the macro width
155420 (that would be 31084) — it is `0.2` times the height 81200. -/
theorem force_coincident_cex :
    (force_based_placement coincidentModel coincidentModel 0.2 0 0).macros =
      [⟨"A", ((-16240 : ℝ), (0 : ℝ))⟩, ⟨"B", ((16240 : ℝ), (0 : ℝ))⟩] ∧
    (16240 : ℝ) ≠ 0.2 * 155420 :=
  ⟨coincident_eval, by norm_num⟩

/-- Claim C5 (amended): the sequential step commits its displacements to
the caller's model (the returned model is what the caller observes
afterwards), but the relaxation step works on a deep copy — the caller's
input model is left untouched and the new positions live only in the
returned copy. -/
theorem step_commit_semantics :
    (∀ (model : List DMacroRec) (w h halo k : Int) (out : List DMacroRec),
        legalize_placement model w h halo k = Except.ok out →
          seqCallerModelAfter model w h halo k = out) ∧
    (∀ (data original : FModel) (ofc sfc halo : ℝ),
        forceCallerModelAfter data original ofc sfc halo = data) := by
  constructor
  · intro model w h halo k out hstep
    unfold seqCallerModelAfter
    rw [hstep]
  · intro _ _ _ _ _
    rfl

/-- Witness for C5 (amended). -/
theorem step_commit_semantics_wit :
    (legalize_placement [⟨"A", 0, 0, false⟩, ⟨"B", 50, 0, false⟩] 100 100 0 0 =
        Except.ok [⟨"A", 0, 0, true⟩, ⟨"B", 100, 0, false⟩] ∧
      seqCallerModelAfter [⟨"A", 0, 0, false⟩, ⟨"B", 50, 0, false⟩] 100 100 0 0 =
        [⟨"A", 0, 0, true⟩, ⟨"B", 100, 0, false⟩]) ∧
    forceCallerModelAfter coincidentModel coincidentModel 0.2 0 0 = coincidentModel :=
  ⟨⟨by rfl, step_commit_semantics.1 _ 100 100 0 0 _ (by rfl)⟩,
    step_commit_semantics.2 coincidentModel coincidentModel 0.2 0 0⟩

/-- Counterexample to C5 as stated: after a relaxation step that moves
both macros, the caller's input model still holds the old positions —
the returned model is a modified copy, not the same model updated in
place. -/
theorem force_not_inplace_cex :
    forceCallerModelAfter coincidentModel coincidentModel 0.2 0 0 = coincidentModel ∧
    (force_based_placement coincidentModel coincidentModel 0.2 0 0).macros ≠
      coincidentModel.macros := by
  refine ⟨rfl, ?_⟩
  rw [coincident_eval]
  norm_num [coincidentModel]

/-- Counterexample to C4 as stated: iteration `-1` is outside
`0 ≤ iteration < macro_count`, yet the step does not fail — Python's
negative indexing selects the last-ranked macro, which then overlaps
itself and is moved, so the model is modified with no error raised. -/
theorem seq_negative_index_cex :
    legalize_placement [⟨"A", 0, 0, false⟩] 100 100 0 (-1) =
      Except.ok [⟨"A", 0, 100, true⟩] ∧
    ([(⟨"A", 0, 100, true⟩ : DMacroRec)] : List DMacroRec) ≠ [⟨"A", 0, 0, false⟩] :=
  ⟨by rfl, by decide⟩
